import Mathlib

/-!
Verification of the document-structuring and multi-stage classification
pipeline of the repository (src/parser/doctree.py, src/extract/stage1-3process.py,
src/extract/point_classify.py, src/extract/chat.py).

Shallow embedding conventions:
* Python strings are `String`; Python ints are `Int` (or `Nat` for indices).
* A parsed LLM JSON response (the output of `parse_json_response`, a Python
  dict with string keys/values) is a `RespDict`; `dictGet` mirrors `dict.get`
  with a default.
* A call to the inference service (`chat_infer`) is modelled by an oracle
  value of type `Except String α`: `.error e` is the exception raised after
  retry exhaustion, `.ok v` is the (already JSON-parsed, for the stages that
  parse) successful response.  `parse_json_response` itself never raises: a
  malformed response yields the empty dict, represented by `.ok []`.
* Thread-pool execution (`ThreadPoolExecutor` + `as_completed`) is modelled
  by an explicit completion order: a list of positions in submission order
  fed to the collection loop.  Python's stable `list.sort(key=...)` is
  modelled by `List.insertionSort` (a stable sort; stable ascending sorts
  agree on output).
-/

/-- A parsed JSON object with string fields, as returned by
`parse_json_response` in src/extract/stage1-3process.py. -/
def RespDict := List (String × String)

/-- Python `dict.get(key, default)` on a `RespDict`. -/
def dictGet (d : RespDict) (key default : String) : String :=
  match d.find? (fun p => p.1 == key) with
  | some p => p.2
  | none => default

/-- Python whitespace as recognised by `str.strip` and the regex class
`\s` (the ASCII set plus the common Unicode whitespace code points). -/
def pyIsSpace (c : Char) : Bool :=
  c = ' ' ∨ c = '\t' ∨ c = '\n' ∨ c = '\r' ∨ c = '\x0b' ∨ c = '\x0c' ∨
    c = '\x1c' ∨ c = '\x1d' ∨ c = '\x1e' ∨ c = '\x1f' ∨ c = '\x85' ∨ c = '\u00a0' ∨
    c = '\u2028' ∨ c = '\u2029' ∨ c = '\u3000'

/-- Python `str.strip()`: drop leading and trailing whitespace. -/
def pyStrip (s : String) : String :=
  String.mk (((s.toList.dropWhile pyIsSpace).reverse.dropWhile pyIsSpace).reverse)

/-- Split a character list at every character satisfying `p`, keeping
empty segments (the semantics of `re.split` with a single-character
class). `acc` holds the current segment, reversed. -/
def predSplitAux (p : Char → Bool) : List Char → List Char → List String
  | acc, [] => [String.mk acc.reverse]
  | acc, c :: rest =>
    if p c then String.mk acc.reverse :: predSplitAux p [] rest
    else predSplitAux p (c :: acc) rest

/-- Split a string at every newline character (the list of lines the
multiline regex of `extract_titles` scans; also Python
`str.split("\n")`). -/
def lfSplitAux : List Char → List Char → List String
  | acc, [] => [String.mk acc.reverse]
  | acc, '\n' :: rest => String.mk acc.reverse :: lfSplitAux [] rest
  | acc, c :: rest => lfSplitAux (c :: acc) rest

/-- The lines of a string, split on `'\n'`. -/
def lfSplit (s : String) : List String := lfSplitAux [] s.toList

/-- Does the string start with `'#'`? (Python `str.startswith("#")`.) -/
def startsWithHash (s : String) : Bool :=
  match s.toList with
  | '#' :: _ => true
  | _ => false

/-- Result of `stage1_semantic_check` (src/extract/stage1-3process.py:54-85). -/
structure Stage1Result where
  has_semantic_info : String
  reason : String
  should_delete : Bool
deriving DecidableEq, Repr

/-- `stage1_semantic_check` (src/extract/stage1-3process.py:54-85).
`outcome` is the oracle for `chat_infer` followed by `parse_json_response`. -/
def stage1_semantic_check (outcome : Except String RespDict) : Stage1Result :=
  match outcome with
  | .ok result =>
    let has_semantic := dictGet result "has_semantic_info" "否"
    let should_delete := has_semantic == "否"
    { has_semantic_info := has_semantic
      reason := dictGet result "reason" ""
      should_delete := should_delete }
  | .error e =>
    { has_semantic_info := "否"
      reason := "处理错误: " ++ e
      should_delete := true }

/-- `stage1_title_clean` (src/extract/stage1-3process.py:88-104).
On failure the original reference text is returned. -/
def stage1_title_clean (reference_text : String) (outcome : Except String String) : String :=
  match outcome with
  | .ok body_text => pyStrip body_text
  | .error _ => reference_text

/-- Result of `stage2_experiment_check` (src/extract/stage1-3process.py:107-138). -/
structure Stage2Result where
  is_experiment : String
  reason : String
  output_type : String
deriving DecidableEq, Repr

/-- `stage2_experiment_check` (src/extract/stage1-3process.py:107-138). -/
def stage2_experiment_check (outcome : Except String RespDict) : Stage2Result :=
  match outcome with
  | .ok result =>
    let is_experiment := dictGet result "is_experiment" "否"
    let output_type := if is_experiment == "是" then "实验步骤" else "原文Reference"
    { is_experiment := is_experiment
      reason := dictGet result "reason" ""
      output_type := output_type }
  | .error e =>
    { is_experiment := "否"
      reason := "处理错误: " ++ e
      output_type := "原文Reference" }

/-- Result of `stage3_chemistry_check` (src/extract/stage1-3process.py:141-173). -/
structure Stage3Result where
  is_chemistry : String
  reason : String
  should_delete : Bool
deriving DecidableEq, Repr

/-- `stage3_chemistry_check` (src/extract/stage1-3process.py:141-173). -/
def stage3_chemistry_check (outcome : Except String RespDict) : Stage3Result :=
  match outcome with
  | .ok result =>
    let is_chemistry := dictGet result "is_chemistry" "否"
    let should_delete := is_chemistry == "是"
    { is_chemistry := is_chemistry
      reason := dictGet result "reason" ""
      should_delete := should_delete }
  | .error e =>
    { is_chemistry := "否"
      reason := "处理错误: " ++ e
      should_delete := false }

/-- The result dict built by `process_single_item`
(src/extract/stage1-3process.py:176-251); the five Chinese-keyed fields, in
source order: 原文Reference, 清洗后的正文, 是否为实验步骤, 是否为化学领域,
是否为发明点. -/
structure ItemResult where
  reference : String
  cleanedBody : String
  isExperiment : String
  isChemistry : String
  isInventionPoint : String
deriving DecidableEq, Repr

/-- One inference call made by a pipeline stage. -/
inductive StageCall where
  | semanticCheck
  | titleClean
  | experimentCheck
  | chemistryCheck
deriving DecidableEq, Repr

/-- Per-item oracle: outcome of each of the (at most four) `chat_infer`
calls made by `process_single_item`. -/
structure LlmOracle where
  semantic : Except String RespDict
  clean : Except String String
  experiment : Except String RespDict
  chemistry : Except String RespDict

/-- `process_single_item` (src/extract/stage1-3process.py:176-251).
Returns the result record together with the list of stage calls actually
made (each stage makes exactly one `chat_infer` call). -/
def process_single_item (item : RespDict) (oracle : LlmOracle) :
    ItemResult × List StageCall :=
  let reference_text := dictGet item "原文Reference" ""
  if reference_text = "" then
    ({ reference := "", cleanedBody := "", isExperiment := "否",
       isChemistry := "", isInventionPoint := "否" }, [])
  else
    let stage1_semantic := stage1_semantic_check oracle.semantic
    if stage1_semantic.should_delete then
      ({ reference := reference_text, cleanedBody := "", isExperiment := "否",
         isChemistry := "", isInventionPoint := "否" },
       [.semanticCheck])
    else
      let body_text := stage1_title_clean reference_text oracle.clean
      let stage2_experiment := stage2_experiment_check oracle.experiment
      let is_experiment := if stage2_experiment.is_experiment == "是" then "是" else "否"
      if is_experiment = "是" then
        let stage3_chemistry := stage3_chemistry_check oracle.chemistry
        let is_chemistry := stage3_chemistry.is_chemistry
        if stage3_chemistry.should_delete then
          ({ reference := reference_text, cleanedBody := body_text,
             isExperiment := is_experiment, isChemistry := is_chemistry,
             isInventionPoint := "否" },
           [.semanticCheck, .titleClean, .experimentCheck, .chemistryCheck])
        else
          ({ reference := reference_text, cleanedBody := body_text,
             isExperiment := is_experiment, isChemistry := is_chemistry,
             isInventionPoint := "是" },
           [.semanticCheck, .titleClean, .experimentCheck, .chemistryCheck])
      else
        ({ reference := reference_text, cleanedBody := body_text,
           isExperiment := is_experiment, isChemistry := "",
           isInventionPoint := "是" },
         [.semanticCheck, .titleClean, .experimentCheck])

/-- One entry of `all_items` in `process_old_extracted_file`
(src/extract/stage1-3process.py:277-293). -/
structure SourceItem where
  source : String
  item : RespDict

/-- Result entry with the `index` and `source` keys added by
`process_with_index` (src/extract/stage1-3process.py:297-302). -/
structure IndexedResult where
  result : ItemResult
  index : Nat
  source : String
deriving Repr

/-- `process_with_index` (src/extract/stage1-3process.py:297-302). -/
def process_with_index (oracles : Nat → LlmOracle) (idx : Nat)
    (source_item : SourceItem) : IndexedResult :=
  { result := (process_single_item source_item.item (oracles idx)).1
    index := idx
    source := source_item.source }

/-- Construction of `all_items` from the two input lists
(src/extract/stage1-3process.py:277-293). -/
def all_items_of (knowledge_points invention_points : List RespDict) : List SourceItem :=
  knowledge_points.map (fun it => { source := "文档中的知识点", item := it }) ++
    invention_points.map (fun it => { source := "文档中潜在发明点", item := it })

/-- The executor/collection part of `process_old_extracted_file`
(src/extract/stage1-3process.py:304-316): all items are submitted to the
pool, results are collected in completion order (`order` lists positions in
submission order as they complete), then sorted by `index`.  Python's
stable `list.sort(key=lambda x: x["index"])` is modelled by the stable
`List.insertionSort`. -/
def process_old_extracted_results (knowledge_points invention_points : List RespDict)
    (oracles : Nat → LlmOracle) (order : List Nat) : List IndexedResult :=
  let all_items := all_items_of knowledge_points invention_points
  let results := order.filterMap
    (fun idx => (all_items[idx]?).map (process_with_index oracles idx))
  results.insertionSort (fun a b => a.index ≤ b.index)

/-- The summary counters computed by `process_old_extracted_file`
(src/extract/stage1-3process.py:323-349). -/
structure Summary where
  total_items : Nat
  invention_point_items : Nat
  deleted_items : Nat
  experiment_items : Nat
  chemistry_items : Nat
deriving DecidableEq, Repr

/-- The statistics block of `process_old_extracted_file`
(src/extract/stage1-3process.py:323-339). -/
def summarize (results : List IndexedResult) : Summary :=
  { total_items := results.length
    invention_point_items := results.countP (fun r => r.result.isInventionPoint == "是")
    deleted_items := results.countP (fun r => r.result.isInventionPoint == "否")
    experiment_items := results.countP (fun r => r.result.isExperiment == "是")
    chemistry_items := results.countP (fun r => r.result.isChemistry == "是") }

/-- One serialized segment consumed by `run_point_extraction`
(src/extract/point_classify.py:52). -/
structure SegmentItem where
  title_path : String
  text : String

/-- One record produced by `process_item` inside `run_point_extraction`
(src/extract/point_classify.py:52-77). -/
structure PointResult where
  index : Nat
  title_path : String
  text : String
  result : String
deriving DecidableEq, Repr

/-- `process_item` (src/extract/point_classify.py:52-77); `outcome` is the
oracle for the `chat_infer` call on the prompt built from the segment. -/
def point_process_item (i : Nat) (item : SegmentItem)
    (outcome : Except String String) : PointResult :=
  match outcome with
  | .ok response =>
    { index := i, title_path := item.title_path, text := item.text
      result := pyStrip ((response.replace "```" "").replace "json" "") }
  | .error e =>
    { index := i, title_path := item.title_path, text := item.text
      result := "ERROR: " ++ e }

/-- The executor/collection part of `run_point_extraction`
(src/extract/point_classify.py:79-89): items are enumerated from 1
(`enumerate(data, 1)`), submitted, and results are appended in completion
order.  No sorting step follows.  `order` lists 0-based positions in the
order the corresponding futures complete; `oracles` gives the `chat_infer`
outcome for the item with a given (1-based) index. -/
def run_point_extraction_results (data : List SegmentItem)
    (oracles : Nat → Except String String) (order : List Nat) : List PointResult :=
  order.filterMap
    (fun pos => (data[pos]?).map (fun item => point_process_item (pos + 1) item (oracles (pos + 1))))

/-! ## Document tree parser (src/parser/doctree.py) -/

/-- `CN_NUMS` (src/parser/doctree.py:12). -/
def CN_NUMS : List Char := ['一', '二', '三', '四', '五', '六', '七', '八', '九', '十']

/-- Membership in the `[一二三四五六七八九十]` character class. -/
def isCnNum (c : Char) : Bool := CN_NUMS.contains c

/-- `DoctreeParser.split_to_sentences` (src/parser/doctree.py:54-61):
strip, then split on the character class `[。！？\n\r]`, keeping the
non-empty stripped parts. -/
def split_to_sentences (text : String) : List String :=
  let t := pyStrip text
  if t = "" then []
  else
    let parts := predSplitAux (fun c => c = '。' ∨ c = '！' ∨ c = '？' ∨ c = '\n' ∨ c = '\r') [] t.toList
    (parts.map pyStrip).filter (fun p => p ≠ "")

/-- A heading found by `extract_titles` (src/parser/doctree.py:63-67):
match start offset (in code points), matched line, and the stripped title
text. -/
structure Heading where
  pos : Nat
  raw : String
  title : String
deriving Repr

/-- Line-by-line scan implementing the multiline regex `^(#+)\s*(.+)$` of
`extract_titles`: a line matches iff it starts with at least one `#` and at
least one character follows the `#` run (backtracking of `\s*` leaves the
last character for `.+`); the captured title, after `.strip()`, is the text
after the `#` run with surrounding whitespace removed.  `offset` is the
code-point position of the current line in the whole text. -/
def extract_titles_lines : Nat → List String → List Heading
  | _, [] => []
  | offset, line :: rest =>
    let cs := line.toList
    let hashes := cs.takeWhile (fun c => c = '#')
    let tail := cs.drop hashes.length
    let here :=
      if hashes ≠ [] ∧ tail ≠ [] then
        [{ pos := offset, raw := line, title := pyStrip (String.mk tail) }]
      else []
    here ++ extract_titles_lines (offset + cs.length + 1) rest

/-- `DoctreeParser.extract_titles` (src/parser/doctree.py:63-67). -/
def extract_titles (text : String) : List Heading :=
  extract_titles_lines 0 (lfSplit text)

/-- Python `str.splitlines` terminator set (the common ones; the text fed
to it comes from markdown files). `\r\n` is handled as one terminator in
`splitlinesChars`. -/
def isLineTerm (c : Char) : Bool :=
  c = '\n' ∨ c = '\r' ∨ c = '\x0b' ∨ c = '\x0c' ∨
    c = '\x1c' ∨ c = '\x1d' ∨ c = '\x1e' ∨ c = '\x85' ∨
    c = ' ' ∨ c = ' '

/-- Python `str.splitlines` on a character list, accumulating the current
line. -/
def splitlinesChars : List Char → List Char → List (List Char)
  | acc, [] => if acc = [] then [] else [acc.reverse]
  | acc, '\r' :: '\n' :: rest => acc.reverse :: splitlinesChars [] rest
  | acc, c :: rest =>
    if isLineTerm c then acc.reverse :: splitlinesChars [] rest
    else splitlinesChars (c :: acc) rest

/-- Python `str.splitlines`. -/
def splitlines (s : String) : List String :=
  (splitlinesChars [] s.toList).map String.mk

/-- `DoctreeParser.split_by_titles` (src/parser/doctree.py:69-84): slice
the text between consecutive heading positions, strip, drop the leading
heading line (a first line starting with `#`), re-join and strip. -/
def split_by_titles (text : String) (titles : List Heading) : List (String × String) :=
  let cs := text.toList
  titles.enum.map (fun p =>
    let i := p.1
    let t := p.2
    let start := t.pos
    let stop :=
      match titles[i + 1]? with
      | some t2 => t2.pos
      | none => cs.length
    let section_text := pyStrip (String.mk ((cs.drop start).take (stop - start)))
    let lines := splitlines section_text
    let lines :=
      match lines with
      | first :: others => if startsWithHash (pyStrip first) then others else lines
      | [] => []
    let clean_section := pyStrip (String.intercalate "\n" lines)
    (t.title, clean_section))

/-- Strength of a rule-based level decision
(`rule_based_level`, src/parser/doctree.py:86-106): `(level, "strong")`,
`(None, "weak")` or `(None, "unknow")` in the source. -/
inductive RuleLevel where
  | strong (level : Int)
  | weak
  | unknow
deriving DecidableEq, Repr

/-- Regex `^[一二三四五六七八九十]+[、.]`. -/
def matchCnList (cs : List Char) : Bool :=
  let nums := cs.takeWhile isCnNum
  nums ≠ [] &&
    match cs.drop nums.length with
    | c :: _ => c = '、' ∨ c = '.'
    | [] => false

/-- Regex `^[（(][一二三四五六七八九十]+[)）]`. -/
def matchParenCn (cs : List Char) : Bool :=
  match cs with
  | c :: rest =>
    (c = '（' ∨ c = '(') &&
      (let nums := rest.takeWhile isCnNum
       nums ≠ [] &&
         match rest.drop nums.length with
         | d :: _ => d = ')' ∨ d = '）'
         | [] => false)
  | [] => false

/-- Regex `^[（(]\d+[)）]`. -/
def matchParenDigit (cs : List Char) : Bool :=
  match cs with
  | c :: rest =>
    (c = '（' ∨ c = '(') &&
      (let nums := rest.takeWhile Char.isDigit
       nums ≠ [] &&
         match rest.drop nums.length with
         | d :: _ => d = ')' ∨ d = '）'
         | [] => false)
  | [] => false

/-- Regex `^\d+\s*[、.)]`. -/
def matchDigitDot (cs : List Char) : Bool :=
  let nums := cs.takeWhile Char.isDigit
  nums ≠ [] &&
    (let rest := (cs.drop nums.length).dropWhile pyIsSpace
     match rest with
     | c :: _ => c = '、' ∨ c = '.' ∨ c = ')'
     | [] => false)

/-- Regex `^【.*】$` (where `.` does not match a newline). -/
def matchBracketTerm (cs : List Char) : Bool :=
  match cs with
  | '【' :: rest =>
    rest ≠ [] && rest.getLast? == some '】' &&
      rest.dropLast.all (fun c => c ≠ '\n')
  | _ => false

/-- Naive substring search implementing `re.search` for a literal pattern. -/
def containsSub (s pat : String) : Bool :=
  let cs := s.toList
  let ps := pat.toList
  (List.range (cs.length + 1)).any (fun i => ps.isPrefixOf (cs.drop i))

/-- The keyword alternation `(方案|发明点|性能测试|表征|制备|步骤)` searched
anywhere in the title. -/
def hasWeakKeyword (s : String) : Bool :=
  containsSub s "方案" || containsSub s "发明点" || containsSub s "性能测试" ||
    containsSub s "表征" || containsSub s "制备" || containsSub s "步骤"

/-- `DoctreeParser.rule_based_level` (src/parser/doctree.py:86-106). -/
def rule_based_level (title : String) : RuleLevel :=
  let s := pyStrip title
  let cs := s.toList
  if startsWithHash s then
    .strong (Int.ofNat (cs.takeWhile (fun c => c = '#')).length)
  else if matchCnList cs then .strong 1
  else if matchParenCn cs then .strong 2
  else if matchParenDigit cs then .strong 3
  else if matchDigitDot cs then .strong 3
  else if matchBracketTerm cs then .strong 3
  else if hasWeakKeyword s then .weak
  else .unknow

/-- The level-resolution loop of `parse_markdown`
(src/parser/doctree.py:169-185), carrying `last_strong` and `prev_titles`.
`llm` is the oracle for `self.llm_predict_level` (its integer return
value). -/
def classify_levels_aux (llm : String → List String → Int) :
    Int → List String → List String → List Int
  | _, _, [] => []
  | last_strong, prev_titles, title :: rest =>
    match rule_based_level title with
    | .strong lvl =>
      lvl :: classify_levels_aux llm lvl (prev_titles ++ [title]) rest
    | .weak =>
      let level := min (if last_strong ≠ 0 then last_strong + 1 else 2) 3
      level :: classify_levels_aux llm last_strong (prev_titles ++ [title]) rest
    | .unknow =>
      let level := llm title prev_titles
      level :: classify_levels_aux llm level (prev_titles ++ [title]) rest

/-- Levels assigned to the extracted titles by the loop of `parse_markdown`
(src/parser/doctree.py:166-185); `last_strong` starts at 0 and
`prev_titles` empty. -/
def classify_levels (llm : String → List String → Int) (titles : List String) : List Int :=
  classify_levels_aux llm 0 [] titles

/-- The `Node` dataclass (src/parser/doctree.py:15-30). -/
inductive Node where
  | mk (title : String) (level : Int) (content : String) (children : List Node)

/-- Node title. -/
def Node.title : Node → String
  | .mk t _ _ _ => t

/-- Node level. -/
def Node.level : Node → Int
  | .mk _ l _ _ => l

/-- Node content. -/
def Node.content : Node → String
  | .mk _ _ c _ => c

/-- Node children. -/
def Node.children : Node → List Node
  | .mk _ _ _ cs => cs

/-- A stack entry of `build_doctree`: a node under construction whose
children list is still growing.  In the Python source children are linked
by mutation at push time; here a finished node is attached to its parent
frame when it is popped (or at the final collapse), which yields the same
tree. -/
structure Frame where
  title : String
  level : Int
  content : String
  children : List Node

/-- Close a frame into a `Node`. -/
def Frame.toNode (f : Frame) : Node :=
  .mk f.title f.level f.content f.children

/-- Append a finished child node to a frame. -/
def attachTo (parent : Frame) (child : Node) : Frame :=
  { parent with children := parent.children ++ [child] }

/-- The `while stack and stack[-1].level >= level: stack.pop()` loop of
`build_doctree` (src/parser/doctree.py:156-157).  The stack is passed as
top frame plus remaining frames; `none` models the `IndexError` raised by
the subsequent `stack[-1]` access when the loop has emptied the stack. -/
def popWhile (level : Int) : Frame → List Frame → Option (Frame × List Frame)
  | top, [] => if level ≤ top.level then none else some (top, [])
  | top, parent :: rs =>
    if level ≤ top.level then popWhile level (attachTo parent top.toNode) rs
    else some (top, parent :: rs)

/-- Final unwinding of the stack: every remaining frame is closed and
attached to the frame below it; the bottom (root) frame becomes the
returned tree. -/
def collapse : Frame → List Frame → Node
  | f, [] => f.toNode
  | top, parent :: rs => collapse (attachTo parent top.toNode) rs

/-- The per-section loop of `build_doctree` (src/parser/doctree.py:149-160):
clamp the level against the stack top, pop to a strictly shallower frame,
attach and push. -/
def build_doctree_aux : Frame → List Frame → List (String × String × Int) → Option Node
  | top, rest, [] => some (collapse top rest)
  | top, rest, (title, content, level) :: sections =>
    let level := if level - top.level > 1 then top.level + 1 else level
    match popWhile level top rest with
    | none => none
    | some (parent, rs) =>
      build_doctree_aux { title := title, level := level, content := content, children := [] }
        (parent :: rs) sections

/-- `DoctreeParser.build_doctree` (src/parser/doctree.py:149-160), starting
from the `ROOT` node of level 0.  `none` models the `IndexError` raised
when an incoming level pops the root off the stack. -/
def build_doctree (sections : List (String × String × Int)) : Option Node :=
  build_doctree_aux { title := "ROOT", level := 0, content := "", children := [] } [] sections

/-- The serializable dict produced by `Node.to_dict`
(src/parser/doctree.py:23-30). -/
inductive NodeDict where
  | mk (title : String) (level : Int) (content : List String) (children : List NodeDict)

/-- NodeDict level. -/
def NodeDict.level : NodeDict → Int
  | .mk _ l _ _ => l

/-- `Node.to_dict` (src/parser/doctree.py:23-30) mapped over a list of
nodes: content is split into sentences, children are converted
recursively. -/
def toDictList : List Node → List NodeDict
  | [] => []
  | (Node.mk title level content children) :: ns =>
    NodeDict.mk title level (split_to_sentences content) (toDictList children) :: toDictList ns

/-- `Node.to_dict` (src/parser/doctree.py:23-30). -/
def Node.to_dict : Node → NodeDict
  | .mk title level content children =>
    .mk title level (split_to_sentences content) (toDictList children)

/-- The claimed level invariant on the children of a node of a given
level: every child level is strictly greater than the parent level, exceeds
it by at most 1, and the same holds recursively below the child. -/
def levelStepList : Int → List Node → Bool
  | _, [] => true
  | lvl, (Node.mk _ clvl _ gchildren) :: cs =>
    decide (lvl < clvl) && decide (clvl ≤ lvl + 1) &&
      levelStepList clvl gchildren && levelStepList lvl cs

/-- The level invariant for a whole tree rooted at a node. -/
def levelStepOk (n : Node) : Bool :=
  levelStepList n.level n.children

/-- The per-frame part of the construction invariant: the children
collected so far in a frame satisfy the level step invariant for the
frame's level. -/
def framesChildrenOk (f : Frame) : Prop :=
  levelStepList f.level f.children = true

/-- The construction invariant of the frame stack: levels descend by
exactly 1 from the top of the stack down to the root frame of level 0, and
every frame's collected children satisfy the level step invariant. -/
def stackOk : List Frame → Prop
  | [] => True
  | [f] => f.level = 0 ∧ framesChildrenOk f
  | f :: g :: rest => f.level = g.level + 1 ∧ framesChildrenOk f ∧ stackOk (g :: rest)

/-- `DoctreeParser.parse_markdown` (src/parser/doctree.py:162-198): extract
titles, classify their levels, split the body text, build the tree and
return the serialized children of the root. -/
def parse_markdown (llm : String → List String → Int) (text : String) :
    Option (List NodeDict) :=
  let titles := extract_titles text
  let levels := classify_levels llm (titles.map (·.title))
  let split_sections := split_by_titles text titles
  let merged := (split_sections.zip levels).map (fun p => (p.1.1, p.1.2, p.2))
  match build_doctree merged with
  | some root => some (toDictList root.children)
  | none => none

/-! ## Table triplet extraction (src/parser/doctree.py:200-239) -/

/-- A triplet emitted by `parse_table` (src/parser/doctree.py:231-237). -/
structure Triplet where
  row_label : String
  col_label : String
  value : String
  row_index : Nat
  col_index : Nat
deriving DecidableEq, Repr

/-- The table payload `\x7bheaders, data\x7d`; JSON cell values are
modelled as the strings Python's `str()` renders them to. -/
structure Table where
  headers : List String
  data : List (List String)

/-- One entry of the `content` list of the Excel JSON. -/
structure ContentItem where
  itemType : String
  content : Table

/-- The Excel JSON object fed to `parse_table`. -/
structure ExcelJson where
  content : List ContentItem

/-- The column label for cell column `j`: the stripped header-row entry,
or the synthetic `Col` label when `j` is out of range
(src/parser/doctree.py:229). -/
def colLabelOf (col_labels : List String) (j : Nat) : String :=
  match col_labels[j]? with
  | some l => l
  | none => "Col" ++ toString j

/-- The inner cell loop of `parse_table` (src/parser/doctree.py:225-237),
with `j` the 0-based running cell index. -/
def parse_table_cells (col_labels : List String) (row_label : String)
    (row_label_col_index i : Nat) : Nat → List String → List Triplet
  | _, [] => []
  | j, cell :: rest =>
    let restT := parse_table_cells col_labels row_label row_label_col_index i (j + 1) rest
    let value := pyStrip cell
    if value = "" ∨ j = row_label_col_index then restT
    else
      let col_label := colLabelOf col_labels j
      if i ≠ 0 then
        { row_label := row_label, col_label := col_label, value := value,
          row_index := i, col_index := j } :: restT
      else restT

/-- The row loop of `parse_table` (src/parser/doctree.py:220-237), with `i`
the 0-based running row index. -/
def parse_table_rows (col_labels : List String) (row_label_col_index : Nat) :
    Nat → List (List String) → List Triplet
  | _, [] => []
  | i, row :: rest =>
    let restT := parse_table_rows col_labels row_label_col_index (i + 1) rest
    if row = [] ∨ row.all (fun v => v = "") then restT
    else
      let row_label :=
        if h : row_label_col_index < row.length then pyStrip (row.get ⟨row_label_col_index, h⟩)
        else "Row" ++ toString i
      parse_table_cells col_labels row_label row_label_col_index i 0 row ++ restT

/-- `DoctreeParser.parse_table` (src/parser/doctree.py:200-239). The
`ValueError` raised when no table item is present is modelled by
`Except.error`. -/
def parse_table (excel_json : ExcelJson) (header_row_index row_label_col_index : Nat) :
    Except String (List Triplet) :=
  let table_items := excel_json.content.filter (fun x => x.itemType == "table")
  match table_items with
  | [] => .error "未检测到表格类型数据"
  | t :: _ =>
    let table := t.content
    let headers := table.headers
    let data := table.data
    let col_labels :=
      match data[header_row_index]? with
      | some row => row
      | none => headers
    let col_labels := col_labels.map pyStrip
    .ok (parse_table_rows col_labels row_label_col_index 0 data)

/-! ## Retry wrapper (src/extract/chat.py:9-15) -/

/-- Outcome of one raw attempt at the inference call: success, a failure of
a transient kind (`openai.OpenAIError` / `requests.exceptions.RequestException`),
or a failure of any other kind. -/
inductive CallResult where
  | ok (s : String)
  | transientErr (e : String)
  | fatalErr (e : String)
deriving DecidableEq, Repr

/-- Modelled from the spec: the `tenacity.wait_exponential(multiplier=1, max=10)`
policy configured on `chat_infer` (src/extract/chat.py:11) — the wait after
a failed attempt `n` (1-based) is `multiplier * 2^(n-1)`, capped at `max`;
the `tenacity` library itself is not part of the sources. -/
def wait_exponential (multiplier maxWait attempt : Nat) : Nat :=
  min (multiplier * 2 ^ (attempt - 1)) maxWait

/-- Modelled from the spec: the retry loop of the `tenacity.retry` decorator
(src/extract/chat.py:9-14) — `attempt` is the 1-based attempt number, `fuel`
the number of attempts still allowed (`stop_after_attempt`).  A success
returns the result; a non-transient failure is re-raised without retrying;
a transient failure is re-raised when the attempt budget is exhausted
(`reraise=True`), otherwise the wrapper waits and retries.  Returns the
final outcome, the number of attempts made, and the list of waits
performed. -/
def retry_aux (outcomes : Nat → CallResult) : Nat → Nat → Except String String × Nat × List Nat
  | _, 0 => (.error "", 0, [])
  | attempt, fuel + 1 =>
    match outcomes attempt with
    | .ok s => (.ok s, 1, [])
    | .fatalErr e => (.error e, 1, [])
    | .transientErr e =>
      if fuel = 0 then (.error e, 1, [])
      else
        let w := wait_exponential 1 10 attempt
        let r := retry_aux outcomes (attempt + 1) fuel
        (r.1, r.2.1 + 1, w :: r.2.2)

/-- Modelled from the spec: `chat_infer` as wrapped by the retry decorator
(src/extract/chat.py:9-15), for a given sequence of raw attempt outcomes:
up to 10 attempts starting at attempt 1. -/
def chat_infer (outcomes : Nat → CallResult) : Except String String × Nat × List Nat :=
  retry_aux outcomes 1 10

/-! ## Helper lemmas -/

theorem stage1_should_delete_eq (o : Except String RespDict) :
    (stage1_semantic_check o).should_delete =
      ((stage1_semantic_check o).has_semantic_info == "否") := by
  cases o <;> rfl

theorem stage3_should_delete_eq (o : Except String RespDict) :
    (stage3_chemistry_check o).should_delete =
      ((stage3_chemistry_check o).is_chemistry == "是") := by
  cases o <;> rfl

theorem process_single_item_inv_point_dichotomy (item : RespDict) (oracle : LlmOracle) :
    (process_single_item item oracle).1.isInventionPoint = "是" ∨
      (process_single_item item oracle).1.isInventionPoint = "否" := by
  simp only [process_single_item]
  by_cases h0 : dictGet item "原文Reference" "" = ""
  · simp [h0]
  · simp only [if_neg h0]
    by_cases h1 : (stage1_semantic_check oracle.semantic).should_delete = true
    · simp [h1]
    · simp only [Bool.not_eq_true] at h1
      by_cases h2 : (stage2_experiment_check oracle.experiment).is_experiment = "是"
      · by_cases h3 : (stage3_chemistry_check oracle.chemistry).should_delete = true
        · simp [h1, h2, h3]
        · simp [h1, h2, h3]
      · simp [h1, beq_iff_eq, h2]

/-! ## Claim C1: decision-table conformance of `process_single_item` -/

/-- C1: for every non-empty item processed by `process_single_item`, the
final keep/delete decision follows the decision table: semantic = 否 ⇒
delete; semantic = 是 and experiment = 否 ⇒ keep; semantic = 是,
experiment = 是, chemistry = 是 ⇒ delete; semantic = 是, experiment = 是,
chemistry = 否 ⇒ keep; and the Stage 3 chemistry check is never invoked
when Stage 2 classifies the item as not-experiment. -/
theorem process_single_item_decision_table (item : RespDict) (oracle : LlmOracle)
    (href : dictGet item "原文Reference" "" ≠ "") :
    ((stage1_semantic_check oracle.semantic).has_semantic_info = "否" →
      (process_single_item item oracle).1.isInventionPoint = "否") ∧
    ((stage1_semantic_check oracle.semantic).has_semantic_info = "是" →
      (stage2_experiment_check oracle.experiment).is_experiment = "否" →
      (process_single_item item oracle).1.isInventionPoint = "是") ∧
    ((stage1_semantic_check oracle.semantic).has_semantic_info = "是" →
      (stage2_experiment_check oracle.experiment).is_experiment = "是" →
      (stage3_chemistry_check oracle.chemistry).is_chemistry = "是" →
      (process_single_item item oracle).1.isInventionPoint = "否") ∧
    ((stage1_semantic_check oracle.semantic).has_semantic_info = "是" →
      (stage2_experiment_check oracle.experiment).is_experiment = "是" →
      (stage3_chemistry_check oracle.chemistry).is_chemistry = "否" →
      (process_single_item item oracle).1.isInventionPoint = "是") ∧
    ((stage2_experiment_check oracle.experiment).is_experiment = "否" →
      StageCall.chemistryCheck ∉ (process_single_item item oracle).2) := by
  have h1 := stage1_should_delete_eq oracle.semantic
  have h3 := stage3_should_delete_eq oracle.chemistry
  simp only [process_single_item, if_neg href]
  by_cases hd : (stage1_semantic_check oracle.semantic).should_delete = true
  · have hsem : (stage1_semantic_check oracle.semantic).has_semantic_info = "否" := by
      rw [h1] at hd; exact beq_iff_eq.mp hd
    refine ⟨fun _ => by simp [hd], ?_, ?_, ?_, ?_⟩ <;>
      first
        | (intro h _; rw [hsem] at h; exact absurd h (by decide))
        | (intro _; simp [hd])
  · simp only [Bool.not_eq_true] at hd
    by_cases he : (stage2_experiment_check oracle.experiment).is_experiment = "是"
    · by_cases hc : (stage3_chemistry_check oracle.chemistry).should_delete = true
      · have hchem : (stage3_chemistry_check oracle.chemistry).is_chemistry = "是" := by
          rw [h3] at hc; exact beq_iff_eq.mp hc
        refine ⟨?_, ?_, fun _ _ _ => by simp [hd, he, hc], ?_, ?_⟩
        · intro h0
          rw [h0] at h1; rw [h1] at hd; exact absurd hd (by decide)
        · intro _ h0; rw [h0] at he; exact absurd he (by decide)
        · intro _ _ h0; rw [hchem] at h0; exact absurd h0 (by decide)
        · intro h0; rw [h0] at he; exact absurd he (by decide)
      · simp only [Bool.not_eq_true] at hc
        refine ⟨?_, ?_, ?_, fun _ _ _ => by simp [hd, he, hc], ?_⟩
        · intro h0
          rw [h0] at h1; rw [h1] at hd; exact absurd hd (by decide)
        · intro _ h0; rw [h0] at he; exact absurd he (by decide)
        · intro _ _ h0
          rw [h3, h0] at hc; exact absurd hc (by decide)
        · intro h0; rw [h0] at he; exact absurd he (by decide)
    · refine ⟨?_, fun _ _ => by simp [hd, beq_iff_eq, he], ?_, ?_, ?_⟩
      · intro h0
        rw [h0] at h1; rw [h1] at hd; exact absurd hd (by decide)
      · intro _ h0 _; exact absurd h0 he
      · intro _ h0 _; exact absurd h0 he
      · intro _; simp [hd, beq_iff_eq, he]

/-- C1 witness: a concrete item whose three stages answer 是/是/是 is
deleted, and the chemistry stage is skipped for a 是/否 run. -/
theorem process_single_item_decision_table_witness :
    dictGet [("原文Reference", "某技术方案")] "原文Reference" "" ≠ "" ∧
    (process_single_item [("原文Reference", "某技术方案")]
      ⟨.ok [("has_semantic_info", "是")], .ok "正文", .ok [("is_experiment", "是")],
        .ok [("is_chemistry", "是")]⟩).1.isInventionPoint = "否" ∧
    StageCall.chemistryCheck ∉ (process_single_item [("原文Reference", "某技术方案")]
      ⟨.ok [("has_semantic_info", "是")], .ok "正文", .ok [("is_experiment", "否")],
        .ok [("is_chemistry", "是")]⟩).2 := by
  refine ⟨by decide, ?_, ?_⟩
  · exact (process_single_item_decision_table [("原文Reference", "某技术方案")]
      ⟨.ok [("has_semantic_info", "是")], .ok "正文", .ok [("is_experiment", "是")],
        .ok [("is_chemistry", "是")]⟩ (by decide)).2.2.1 (by decide) (by decide) (by decide)
  · exact (process_single_item_decision_table [("原文Reference", "某技术方案")]
      ⟨.ok [("has_semantic_info", "是")], .ok "正文", .ok [("is_experiment", "否")],
        .ok [("is_chemistry", "是")]⟩ (by decide)).2.2.2.2 (by decide)

/-! ## Claim C5: empty reference short-circuits to delete with no calls -/

/-- C5: an item whose 原文Reference is empty yields the terminal delete
record immediately, with no inference calls made. -/
theorem process_single_item_empty_reference (item : RespDict) (oracle : LlmOracle)
    (h : dictGet item "原文Reference" "" = "") :
    process_single_item item oracle =
      ({ reference := "", cleanedBody := "", isExperiment := "否",
         isChemistry := "", isInventionPoint := "否" }, []) := by
  simp [process_single_item, h]

/-- C5 witness: the empty item map short-circuits to delete with no
inference calls. -/
theorem process_single_item_empty_reference_witness :
    process_single_item [] ⟨.ok [], .ok "", .ok [], .ok []⟩ =
      ({ reference := "", cleanedBody := "", isExperiment := "否",
         isChemistry := "", isInventionPoint := "否" }, []) :=
  process_single_item_empty_reference [] ⟨.ok [], .ok "", .ok [], .ok []⟩ (by decide)

/-! ## Claim C6: stage-specific defaults on call or parse failure -/

/-- C6: each stage degrades to its stage-specific default instead of
raising, both when the inference call fails (`.error e`) and when the
response parse fails (`.ok []`, the empty dict returned by
`parse_json_response`): Stage 1 fails closed (否 / delete, with the error
reason recorded on a call failure), Stage 2 defaults to not-experiment
(原文Reference output type), Stage 3 fails open (否 / keep). -/
theorem stage_failure_defaults (e : String) :
    stage1_semantic_check (.error e) =
      { has_semantic_info := "否", reason := "处理错误: " ++ e, should_delete := true } ∧
    stage1_semantic_check (.ok []) =
      { has_semantic_info := "否", reason := "", should_delete := true } ∧
    stage2_experiment_check (.error e) =
      { is_experiment := "否", reason := "处理错误: " ++ e, output_type := "原文Reference" } ∧
    stage2_experiment_check (.ok []) =
      { is_experiment := "否", reason := "", output_type := "原文Reference" } ∧
    stage3_chemistry_check (.error e) =
      { is_chemistry := "否", reason := "处理错误: " ++ e, should_delete := false } ∧
    stage3_chemistry_check (.ok []) =
      { is_chemistry := "否", reason := "", should_delete := false } := by
  refine ⟨rfl, ?_, rfl, ?_, rfl, ?_⟩ <;> rfl

/-! ## Claim C10: total = invention points + deleted -/

theorem mem_results_inv_point_dichotomy (kps ips : List RespDict)
    (oracles : Nat → LlmOracle) (order : List Nat) :
    ∀ r ∈ process_old_extracted_results kps ips oracles order,
      r.result.isInventionPoint = "是" ∨ r.result.isInventionPoint = "否" := by
  intro r hr
  unfold process_old_extracted_results at hr
  rw [List.mem_insertionSort] at hr
  rw [List.mem_filterMap] at hr
  obtain ⟨idx, _, heq⟩ := hr
  rw [Option.map_eq_some'] at heq
  obtain ⟨si, _, hsi⟩ := heq
  have : r.result = (process_single_item si.item (oracles idx)).1 := by
    rw [← hsi]; rfl
  rw [this]
  exact process_single_item_inv_point_dichotomy si.item (oracles idx)

/-- C10: every result of `process_single_item` has 是否为发明点 equal to
是 or 否, so in the summary of `process_old_extracted_file` the total item
count equals the invention-point count plus the deleted count, for every
input and every completion order. -/
theorem summarize_total_eq_invention_add_deleted (kps ips : List RespDict)
    (oracles : Nat → LlmOracle) (order : List Nat) :
    (summarize (process_old_extracted_results kps ips oracles order)).total_items =
      (summarize (process_old_extracted_results kps ips oracles order)).invention_point_items +
        (summarize (process_old_extracted_results kps ips oracles order)).deleted_items := by
  have hmem := mem_results_inv_point_dichotomy kps ips oracles order
  simp only [summarize]
  rw [List.length_eq_countP_add_countP (fun r => r.result.isInventionPoint == "是")]
  congr 1
  apply List.countP_congr
  intro r hr
  rcases hmem r hr with h | h <;> simp [h]

/-! ## Claim C3: executor result ordering -/

theorem all_items_of_length (kps ips : List RespDict) :
    (all_items_of kps ips).length = kps.length + ips.length := by
  simp [all_items_of]

theorem collected_map_index (items : List SourceItem) (oracles : Nat → LlmOracle)
    (order : List Nat) (h : ∀ i ∈ order, i < items.length) :
    (order.filterMap
        (fun idx => (items[idx]?).map (process_with_index oracles idx))).map (·.index) =
      order := by
  induction order with
  | nil => rfl
  | cons i rest ih =>
    have hi : i < items.length := h i (List.mem_cons_self i rest)
    have hsome : items[i]? = some items[i] := List.getElem?_eq_getElem hi
    simp only [List.filterMap_cons, hsome, Option.map_some', List.map_cons]
    rw [ih (fun j hj => h j (List.mem_cons_of_mem i hj))]
    rfl

theorem point_process_item_index (i : Nat) (item : SegmentItem)
    (o : Except String String) : (point_process_item i item o).index = i := by
  cases o <;> rfl

theorem point_collected_map_index (data : List SegmentItem)
    (oracles : Nat → Except String String) (order : List Nat)
    (h : ∀ p ∈ order, p < data.length) :
    (run_point_extraction_results data oracles order).map (·.index) =
      order.map (· + 1) := by
  induction order with
  | nil => rfl
  | cons p rest ih =>
    have hp : p < data.length := h p (List.mem_cons_self p rest)
    have hsome : data[p]? = some data[p] := List.getElem?_eq_getElem hp
    simp only [run_point_extraction_results, List.filterMap_cons, hsome, Option.map_some',
      List.map_cons] at *
    rw [ih (fun j hj => h j (List.mem_cons_of_mem p hj))]
    rw [point_process_item_index]

/-- C3 counterexample: with two submitted segments and completion order
(second, first) — a legitimate completion order of the pool —
`run_point_extraction` returns result indices `[2, 1]`: the returned list
is not sorted ascending by index, contradicting the claim that the result
list is strictly ascending regardless of completion order. -/
theorem run_point_extraction_unsorted_counterexample :
    [1, 0].Perm (List.range 2) ∧
    (run_point_extraction_results [⟨"p", "a"⟩, ⟨"q", "b"⟩] (fun _ => .ok "r") [1, 0]).map
        (·.index) = [2, 1] ∧
    ¬ List.Sorted (· < ·)
      ((run_point_extraction_results [⟨"p", "a"⟩, ⟨"q", "b"⟩] (fun _ => .ok "r") [1, 0]).map
        (·.index)) := by
  refine ⟨by decide, by rfl, ?_⟩
  intro hs
  rw [show (run_point_extraction_results [⟨"p", "a"⟩, ⟨"q", "b"⟩] (fun _ => .ok "r")
      [1, 0]).map (·.index) = [2, 1] from rfl] at hs
  exact absurd (List.rel_of_sorted_cons hs 1 (by decide)) (by decide)

/-- C3 (amended): for every batch and every completion order that is a
permutation of the submission positions, `process_old_extracted_file`
(which sorts by `index` after collection) returns exactly N results whose
index sequence is exactly `0, 1, ..., N-1` — each submitted index exactly
once, strictly ascending; `run_point_extraction`, by contrast, returns
exactly N results, one per submitted item (indices 1..N each exactly
once), but in completion order — it performs no sort. -/
theorem executor_collection_amended (kps ips : List RespDict)
    (oracles : Nat → LlmOracle) (order : List Nat)
    (h : order.Perm (List.range (kps.length + ips.length)))
    (data : List SegmentItem) (oracles2 : Nat → Except String String)
    (order2 : List Nat) (h2 : order2.Perm (List.range data.length)) :
    (process_old_extracted_results kps ips oracles order).map (·.index) =
      List.range (kps.length + ips.length) ∧
    (process_old_extracted_results kps ips oracles order).length =
      kps.length + ips.length ∧
    (∀ i < kps.length + ips.length,
      ((process_old_extracted_results kps ips oracles order).map (·.index)).count i = 1) ∧
    (run_point_extraction_results data oracles2 order2).length = data.length ∧
    ((run_point_extraction_results data oracles2 order2).map (·.index)).Perm
      ((List.range data.length).map (· + 1)) ∧
    (run_point_extraction_results data oracles2 order2).map (·.index) =
      order2.map (· + 1) := by
  have hbound : ∀ i ∈ order, i < kps.length + ips.length := by
    intro i hi
    exact List.mem_range.mp (h.mem_iff.mp hi)
  have hbound2 : ∀ p ∈ order2, p < data.length := by
    intro p hp
    exact List.mem_range.mp (h2.mem_iff.mp hp)
  have hitems : ∀ i ∈ order, i < (all_items_of kps ips).length := by
    intro i hi; rw [all_items_of_length]; exact hbound i hi
  have hbase : (order.filterMap
      (fun idx => ((all_items_of kps ips)[idx]?).map (process_with_index oracles idx))).map
        (·.index) = order :=
    collected_map_index (all_items_of kps ips) oracles order hitems
  have hperm : (process_old_extracted_results kps ips oracles order).Perm
      (order.filterMap
        (fun idx => ((all_items_of kps ips)[idx]?).map (process_with_index oracles idx))) := by
    unfold process_old_extracted_results
    exact List.perm_insertionSort _ _
  haveI htot : IsTotal IndexedResult (fun a b => a.index ≤ b.index) :=
    ⟨fun a b => Nat.le_total a.index b.index⟩
  haveI htr : IsTrans IndexedResult (fun a b => a.index ≤ b.index) :=
    ⟨fun _ _ _ hab hbc => le_trans hab hbc⟩
  have hsorted : List.Sorted (fun a b : IndexedResult => a.index ≤ b.index)
      (process_old_extracted_results kps ips oracles order) := by
    unfold process_old_extracted_results
    exact List.sorted_insertionSort _ _
  have hmap_sorted : List.Sorted (· ≤ ·)
      ((process_old_extracted_results kps ips oracles order).map (·.index)) :=
    by
      refine List.Pairwise.map (·.index) ?_ hsorted
      exact fun _ _ hab => hab
  have hmap_perm : ((process_old_extracted_results kps ips oracles order).map (·.index)).Perm
      (List.range (kps.length + ips.length)) := by
    have hp1 := hperm.map (·.index)
    rw [hbase] at hp1
    exact hp1.trans h
  have hmain : (process_old_extracted_results kps ips oracles order).map (·.index) =
      List.range (kps.length + ips.length) :=
    List.eq_of_perm_of_sorted hmap_perm hmap_sorted
      (List.sorted_le_range (kps.length + ips.length))
  have hpoint : (run_point_extraction_results data oracles2 order2).map (·.index) =
      order2.map (· + 1) :=
    point_collected_map_index data oracles2 order2 hbound2
  refine ⟨hmain, ?_, ?_, ?_, ?_, hpoint⟩
  · have := congrArg List.length hmain
    simpa using this
  · intro i hi
    rw [hmain]
    exact List.count_eq_one_of_mem (List.nodup_range _) (List.mem_range.mpr hi)
  · have := congrArg List.length hpoint
    simp only [List.length_map] at this
    rw [this, h2.length_eq, List.length_range]
  · rw [hpoint]
    exact h2.map _

/-- C3 witness: a concrete singleton batch with completion order `[0]`. -/
theorem executor_collection_amended_witness :
    ([0] : List Nat).Perm (List.range 1) ∧
    (process_old_extracted_results [[("原文Reference", "x")]] []
        (fun _ => ⟨.error "e", .error "e", .error "e", .error "e"⟩) [0]).map (·.index) =
      List.range 1 ∧
    (run_point_extraction_results [⟨"t", "x"⟩] (fun _ => .ok "r") [0]).map (·.index) =
      [0].map (· + 1) := by
  refine ⟨by decide, ?_, ?_⟩
  · exact (executor_collection_amended [[("原文Reference", "x")]] []
      (fun _ => ⟨.error "e", .error "e", .error "e", .error "e"⟩) [0] (by decide)
      [⟨"t", "x"⟩] (fun _ => .ok "r") [0] (by decide)).1
  · exact (executor_collection_amended [[("原文Reference", "x")]] []
      (fun _ => ⟨.error "e", .error "e", .error "e", .error "e"⟩) [0] (by decide)
      [⟨"t", "x"⟩] (fun _ => .ok "r") [0] (by decide)).2.2.2.2.2

/-! ## Claim C2: level invariant of `build_doctree` -/

theorem levelStepList_append (lvl : Int) (cs : List Node) (c : Node) :
    levelStepList lvl (cs ++ [c]) = true ↔
      (levelStepList lvl cs = true ∧ lvl < c.level ∧ c.level ≤ lvl + 1 ∧
        levelStepOk c = true) := by
  induction cs with
  | nil =>
    cases c with
    | mk t l cnt ch =>
      simp [levelStepList, levelStepOk, Node.level, Node.children]
      tauto
  | cons d ds ih =>
    cases d with
    | mk t l cnt ch =>
      simp only [List.cons_append, levelStepList, Bool.and_eq_true] at ih ⊢
      tauto

theorem framesChildrenOk_empty (title : String) (lvl : Int) (content : String) :
    framesChildrenOk { title := title, level := lvl, content := content, children := [] } := by
  unfold framesChildrenOk
  simp [levelStepList]

theorem stackOk_fcOk (fs : List Frame) (f : Frame) (h : stackOk (f :: fs)) :
    framesChildrenOk f := by
  cases fs with
  | nil => exact h.2
  | cons g rest => exact h.2.1

theorem stackOk_head_nonneg (fs : List Frame) :
    ∀ f : Frame, stackOk (f :: fs) → 0 ≤ f.level := by
  induction fs with
  | nil =>
    intro f h
    have h1 : f.level = 0 := h.1
    omega
  | cons g rest ih =>
    intro f h
    have h1 : f.level = g.level + 1 := h.1
    have h2 := ih g h.2.2
    omega

theorem stackOk_replace_head (rs : List Frame) (g g' : Frame) (h : stackOk (g :: rs))
    (hl : g'.level = g.level) (hc : framesChildrenOk g') : stackOk (g' :: rs) := by
  cases rs with
  | nil => exact ⟨by rw [hl]; exact h.1, hc⟩
  | cons x xs => exact ⟨by rw [hl]; exact h.1, hc, h.2.2⟩

theorem framesChildrenOk_attach (g : Frame) (c : Node) (hg : framesChildrenOk g)
    (hl : c.level = g.level + 1) (hok : levelStepOk c = true) :
    framesChildrenOk (attachTo g c) := by
  have hlev : (attachTo g c).level = g.level := rfl
  have hch : (attachTo g c).children = g.children ++ [c] := rfl
  unfold framesChildrenOk
  rw [hlev, hch]
  exact (levelStepList_append _ _ _).mpr ⟨hg, by omega, by omega, hok⟩

theorem levelStepOk_toNode (f : Frame) (h : framesChildrenOk f) :
    levelStepOk f.toNode = true := h

theorem stackOk_attach_step (top parent : Frame) (rs : List Frame)
    (h : stackOk (top :: parent :: rs)) :
    stackOk (attachTo parent top.toNode :: rs) := by
  have htl : top.level = parent.level + 1 := h.1
  have hfc : framesChildrenOk (attachTo parent top.toNode) :=
    framesChildrenOk_attach parent top.toNode (stackOk_fcOk rs parent h.2.2) htl
      (levelStepOk_toNode top h.2.1)
  exact stackOk_replace_head rs parent _ h.2.2 rfl hfc

theorem popWhile_spec (rest : List Frame) :
    ∀ (top : Frame) (level : Int), stackOk (top :: rest) → 1 ≤ level →
      level ≤ top.level + 1 →
      ∃ parent rs, popWhile level top rest = some (parent, rs) ∧
        stackOk (parent :: rs) ∧ parent.level = level - 1 := by
  induction rest with
  | nil =>
    intro top level hok h1 h2
    have h0 : top.level = 0 := hok.1
    unfold popWhile
    rw [if_neg (by omega)]
    exact ⟨top, [], rfl, hok, by omega⟩
  | cons parent rs ih =>
    intro top level hok h1 h2
    have htl : top.level = parent.level + 1 := hok.1
    by_cases hle : level ≤ top.level
    · unfold popWhile
      rw [if_pos hle]
      have hok' := stackOk_attach_step top parent rs hok
      have hal : (attachTo parent top.toNode).level = parent.level := rfl
      exact ih (attachTo parent top.toNode) level hok' h1 (by rw [hal]; omega)
    · unfold popWhile
      rw [if_neg hle]
      exact ⟨top, parent :: rs, rfl, hok, by omega⟩

theorem popWhile_nonpos (rest : List Frame) :
    ∀ (top : Frame) (level : Int), stackOk (top :: rest) → level ≤ 0 →
      popWhile level top rest = none := by
  induction rest with
  | nil =>
    intro top level hok hl
    have h0 : top.level = 0 := hok.1
    unfold popWhile
    rw [if_pos (by omega)]
  | cons parent rs ih =>
    intro top level hok hl
    have hnn := stackOk_head_nonneg (parent :: rs) top hok
    unfold popWhile
    rw [if_pos (by omega)]
    exact ih (attachTo parent top.toNode) level (stackOk_attach_step top parent rs hok) hl

theorem collapse_ok (rs : List Frame) :
    ∀ top : Frame, stackOk (top :: rs) → levelStepOk (collapse top rs) = true := by
  induction rs with
  | nil => intro top hok; exact levelStepOk_toNode top hok.2
  | cons parent rs ih =>
    intro top hok
    exact ih (attachTo parent top.toNode) (stackOk_attach_step top parent rs hok)

theorem build_doctree_aux_ok (sections : List (String × String × Int)) :
    ∀ (top : Frame) (rest : List Frame) (t : Node), stackOk (top :: rest) →
      build_doctree_aux top rest sections = some t → levelStepOk t = true := by
  induction sections with
  | nil =>
    intro top rest t hok heq
    unfold build_doctree_aux at heq
    rw [Option.some_inj] at heq
    rw [← heq]
    exact collapse_ok rest top hok
  | cons s sections' ih =>
    obtain ⟨title, content, level⟩ := s
    intro top rest t hok heq
    simp only [build_doctree_aux] at heq
    generalize hℓ : (if level - top.level > 1 then top.level + 1 else level) = ℓ at heq
    have h2 : ℓ ≤ top.level + 1 := by
      rw [← hℓ]; split <;> omega
    by_cases h1 : 1 ≤ ℓ
    · obtain ⟨parent, rs, hpw, hok', hpl⟩ := popWhile_spec rest top ℓ hok h1 h2
      rw [hpw] at heq
      refine ih { title := title, level := ℓ, content := content, children := [] }
        (parent :: rs) t ?_ heq
      exact ⟨by show ℓ = parent.level + 1; omega, framesChildrenOk_empty _ _ _, hok'⟩
    · rw [popWhile_nonpos rest top ℓ hok (by omega)] at heq
      exact absurd heq (by simp)

theorem build_doctree_aux_isSome (sections : List (String × String × Int)) :
    ∀ (top : Frame) (rest : List Frame), stackOk (top :: rest) →
      (∀ s ∈ sections, 1 ≤ s.2.2) → (build_doctree_aux top rest sections).isSome := by
  induction sections with
  | nil =>
    intro top rest _ _
    simp [build_doctree_aux]
  | cons s sections' ih =>
    obtain ⟨title, content, level⟩ := s
    intro top rest hok hall
    have hlev : 1 ≤ level := hall _ (List.mem_cons_self _ _)
    have hnn := stackOk_head_nonneg rest top hok
    simp only [build_doctree_aux]
    generalize hℓ : (if level - top.level > 1 then top.level + 1 else level) = ℓ
    have h1 : 1 ≤ ℓ := by rw [← hℓ]; split <;> omega
    have h2 : ℓ ≤ top.level + 1 := by rw [← hℓ]; split <;> omega
    obtain ⟨parent, rs, hpw, hok', hpl⟩ := popWhile_spec rest top ℓ hok h1 h2
    rw [hpw]
    exact ih { title := title, level := ℓ, content := content, children := [] }
      (parent :: rs) ⟨by show ℓ = parent.level + 1; omega, framesChildrenOk_empty _ _ _, hok'⟩
      (fun s hs => hall s (List.mem_cons_of_mem _ hs))

/-- C2: for every input section sequence on which `build_doctree` returns a
tree, every non-root node's level is strictly greater than its parent's
level and exceeds it by at most 1 (`levelStepOk`); and whenever all input
levels are at least 1, out-of-range deep jumps are clamped rather than
rejected: the builder always returns a tree. -/
theorem build_doctree_level_invariant (sections : List (String × String × Int)) :
    ((∀ s ∈ sections, 1 ≤ s.2.2) → (build_doctree sections).isSome) ∧
    (∀ t, build_doctree sections = some t → levelStepOk t = true) := by
  have hok : stackOk [({ title := "ROOT", level := 0, content := "", children := [] } : Frame)] :=
    ⟨rfl, framesChildrenOk_empty _ _ _⟩
  exact ⟨fun h => build_doctree_aux_isSome sections _ [] hok h,
    fun t ht => build_doctree_aux_ok sections _ [] t hok ht⟩

/-- C2 witness: a concrete two-section input with a deep jump (level 1 then
level 3); the builder returns a tree (the jump is clamped to level 2) and
the level invariant holds on it. -/
theorem build_doctree_level_invariant_witness :
    (build_doctree [("a", "x", (1 : Int)), ("b", "y", 3)]).isSome ∧
    levelStepOk (Node.mk "ROOT" 0 "" [Node.mk "a" 1 "x" [Node.mk "b" 2 "y" []]]) = true := by
  refine ⟨(build_doctree_level_invariant [("a", "x", (1 : Int)), ("b", "y", 3)]).1 ?_, ?_⟩
  · intro s hs
    fin_cases hs <;> norm_num
  · exact (build_doctree_level_invariant [("a", "x", (1 : Int)), ("b", "y", 3)]).2
      (Node.mk "ROOT" 0 "" [Node.mk "a" 1 "x" [Node.mk "b" 2 "y" []]]) rfl

/-! ## Claim C4: documents without headings -/

theorem extract_titles_lines_no_hash (lines : List String) :
    ∀ offset : Nat, (∀ line ∈ lines, line.toList.head? ≠ some '#') →
      extract_titles_lines offset lines = [] := by
  induction lines with
  | nil => intro o _; rfl
  | cons line rest ih =>
    intro o h
    have hhead := h line (List.mem_cons_self _ _)
    have hhashes : line.toList.takeWhile (fun c => c = '#') = [] := by
      cases hcs : line.toList with
      | nil => rfl
      | cons c cs' =>
        have hc : ¬(c = '#') := by
          intro hc
          exact hhead (by rw [hcs, hc]; rfl)
        simp [List.takeWhile_cons, hc]
    simp only [extract_titles_lines, hhashes]
    simp only [ne_eq, not_true_eq_false, false_and, if_neg, ite_false, List.nil_append,
      not_false_eq_true]
    exact ih _ (fun l hl => h l (List.mem_cons_of_mem _ hl))

theorem parse_markdown_of_titles_nil (llm : String → List String → Int) (text : String)
    (h : extract_titles text = []) : parse_markdown llm text = some [] := by
  have hc : toDictList [] = [] := by simp [toDictList]
  have h1 : parse_markdown llm text = some (toDictList []) := by
    unfold parse_markdown
    rw [h]
    rfl
  rw [h1, hc]

/-- C4 counterexample: for a concrete document with no heading marker the
Title Extractor finds no headings, as claimed, but `parse_markdown`
returns the empty node list — the document's text is not carried by any
root node, so the claim's document-wide fallback does not exist. -/
theorem parse_markdown_no_heading_counterexample :
    extract_titles "hello world\n这是没有标题的文档。" = [] ∧
    parse_markdown (fun _ _ => 3) "hello world\n这是没有标题的文档。" = some [] := by
  have h : extract_titles "hello world\n这是没有标题的文档。" = [] := by rfl
  exact ⟨h, parse_markdown_of_titles_nil _ _ h⟩

/-- C4 (amended): for a document in which the Title Extractor finds no
heading marker (no line starts with `#`), the heading list is empty and
`parse_markdown` returns the empty list of nodes: the document's text does
not appear in the parse output (there is no single-root fallback carrying
it). -/
theorem parse_markdown_no_heading_amended (llm : String → List String → Int) (text : String)
    (h : ∀ line ∈ lfSplit text, line.toList.head? ≠ some '#') :
    extract_titles text = [] ∧ parse_markdown llm text = some [] := by
  have ht : extract_titles text = [] := by
    unfold extract_titles
    exact extract_titles_lines_no_hash (lfSplit text) 0 h
  exact ⟨ht, parse_markdown_of_titles_nil llm text ht⟩

/-- C4 witness: the amended claim applied to a concrete heading-less
document. -/
theorem parse_markdown_no_heading_amended_witness :
    extract_titles "正文第一行\n正文第二行" = [] ∧
    parse_markdown (fun _ _ => 3) "正文第一行\n正文第二行" = some [] :=
  parse_markdown_no_heading_amended (fun _ _ => 3) "正文第一行\n正文第二行" (by decide)

/-! ## Claim C7: level-classifier pattern rules -/

/-- C7 counterexample: a weak-hint title ("制备方法") arriving while
`lastStrongLevel` is still 0 (no strong rule has fired yet) is resolved to
level 2, not to `lastStrongLevel + 1` capped at 3 (which would be
`min (0 + 1) 3 = 1`): the code computes
`min(last_strong + 1 if last_strong else 2, 3)`. -/
theorem weak_level_no_strong_counterexample :
    rule_based_level "制备方法" = .weak ∧
    classify_levels (fun _ _ => 3) ["制备方法"] = [2] ∧
    (2 : Int) ≠ min (0 + 1) 3 := by
  refine ⟨by decide, by decide, by decide⟩

/-- C7 (amended): the pattern rules assign 一、标题 ⇒ strong 1,
（一）小节 ⇒ strong 2, (1) 条目 ⇒ strong 3, 【关键词】 ⇒ strong 3, and a
title containing 制备 with no explicit marker is a weak hint; in
`parse_markdown`'s level-resolution loop a weak hint resolves to
`lastStrongLevel + 1` capped at 3 when some strong level has already been
seen (`lastStrongLevel ≥ 1`), and to 2 when none has
(`lastStrongLevel = 0`); in both cases `lastStrongLevel` is not updated
(the loop continues with the same value). -/
theorem rule_level_patterns_amended :
    rule_based_level "一、标题" = .strong 1 ∧
    rule_based_level "（一）小节" = .strong 2 ∧
    rule_based_level "(1) 条目" = .strong 3 ∧
    rule_based_level "【关键词】" = .strong 3 ∧
    rule_based_level "制备方法" = .weak ∧
    (∀ (llm : String → List String → Int) (last_strong : Int) (prev rest : List String)
      (title : String), rule_based_level title = .weak →
      (1 ≤ last_strong →
        classify_levels_aux llm last_strong prev (title :: rest) =
          min (last_strong + 1) 3 ::
            classify_levels_aux llm last_strong (prev ++ [title]) rest) ∧
      (last_strong = 0 →
        classify_levels_aux llm last_strong prev (title :: rest) =
          2 :: classify_levels_aux llm last_strong (prev ++ [title]) rest)) := by
  refine ⟨by decide, by decide, by decide, by decide, by decide, ?_⟩
  intro llm last_strong prev rest title hweak
  constructor
  · intro hpos
    simp only [classify_levels_aux, hweak]
    rw [if_pos (by omega)]
  · intro hzero
    simp only [classify_levels_aux, hweak]
    rw [hzero]
    norm_num

/-- C7 witness: the amended weak-hint rule applied concretely with
`lastStrongLevel = 3` and with `lastStrongLevel = 0`. -/
theorem rule_level_patterns_amended_witness :
    classify_levels_aux (fun _ _ => 3) 3 [] ["制备方法"] = [min (3 + 1) 3] ∧
    classify_levels_aux (fun _ _ => 3) 0 [] ["制备方法"] = [2] := by
  constructor
  · rw [(rule_level_patterns_amended.2.2.2.2.2 (fun _ _ => 3) 3 [] [] "制备方法"
      (by decide)).1 (by norm_num)]
    rfl
  · rw [(rule_level_patterns_amended.2.2.2.2.2 (fun _ _ => 3) 0 [] [] "制备方法"
      (by decide)).2 rfl]
    rfl

/-! ## Claim C8: retry policy of `chat_infer` -/

theorem retry_aux_spec (outcomes : Nat → CallResult) :
    ∀ (fuel attempt : Nat), 1 ≤ fuel →
      1 ≤ (retry_aux outcomes attempt fuel).2.1 ∧
      (retry_aux outcomes attempt fuel).2.1 ≤ fuel ∧
      (retry_aux outcomes attempt fuel).2.2 =
        (List.range' attempt ((retry_aux outcomes attempt fuel).2.1 - 1)).map
          (wait_exponential 1 10) ∧
      (∀ j, j + 1 < (retry_aux outcomes attempt fuel).2.1 →
        ∃ e, outcomes (attempt + j) = .transientErr e) ∧
      (∀ s, (retry_aux outcomes attempt fuel).1 = .ok s →
        outcomes (attempt + ((retry_aux outcomes attempt fuel).2.1 - 1)) = .ok s) ∧
      (∀ e, (retry_aux outcomes attempt fuel).1 = .error e →
        outcomes (attempt + ((retry_aux outcomes attempt fuel).2.1 - 1)) = .transientErr e ∨
          outcomes (attempt + ((retry_aux outcomes attempt fuel).2.1 - 1)) = .fatalErr e) ∧
      ((retry_aux outcomes attempt fuel).2.1 < fuel →
        (∃ s, outcomes (attempt + ((retry_aux outcomes attempt fuel).2.1 - 1)) = .ok s) ∨
          (∃ e, outcomes (attempt + ((retry_aux outcomes attempt fuel).2.1 - 1)) = .fatalErr e)) := by
  intro fuel
  induction fuel with
  | zero => intro attempt h; omega
  | succ f ih =>
    intro attempt _
    cases houtcome : outcomes attempt with
    | ok s =>
      simp only [retry_aux, houtcome]
      refine ⟨le_refl 1, by omega, rfl, ?_, ?_, ?_, ?_⟩
      · intro j hj; omega
      · intro s' hs'
        cases hs'
        simpa using houtcome
      · intro e he; cases he
      · intro _
        exact Or.inl ⟨s, by simpa using houtcome⟩
    | fatalErr e =>
      simp only [retry_aux, houtcome]
      refine ⟨le_refl 1, by omega, rfl, ?_, ?_, ?_, ?_⟩
      · intro j hj; omega
      · intro s' hs'; cases hs'
      · intro e' he'
        cases he'
        exact Or.inr (by simpa using houtcome)
      · intro _
        exact Or.inr ⟨e, by simpa using houtcome⟩
    | transientErr e =>
      by_cases hf : f = 0
      · subst hf
        simp only [retry_aux, houtcome, ite_true, eq_self_iff_true]
        refine ⟨le_refl 1, by omega, rfl, ?_, ?_, ?_, ?_⟩
        · intro j hj; omega
        · intro s' hs'; cases hs'
        · intro e' he'
          cases he'
          exact Or.inl (by simpa using houtcome)
        · intro hlt; omega
      · obtain ⟨ih1, ih2, ih3, ih4, ih5, ih6, ih7⟩ := ih (attempt + 1) (by omega)
        simp only [retry_aux, houtcome, if_neg hf]
        set n' := (retry_aux outcomes (attempt + 1) f).2.1 with hn'
        have hidx : attempt + (n' + 1 - 1) = attempt + 1 + (n' - 1) := by omega
        refine ⟨by omega, by omega, ?_, ?_, ?_, ?_, ?_⟩
        · have hrange : List.range' attempt (n' + 1 - 1) =
              attempt :: List.range' (attempt + 1) (n' - 1) := by
            have : n' + 1 - 1 = (n' - 1) + 1 := by omega
            rw [this, List.range'_succ]
          rw [hrange, List.map_cons, ← ih3]
        · intro j hj
          cases j with
          | zero => exact ⟨e, by simpa using houtcome⟩
          | succ j' =>
            have := ih4 j' (by omega)
            simpa [Nat.add_comm, Nat.add_assoc, Nat.add_left_comm] using this
        · intro s' hs'
          rw [hidx]
          exact ih5 s' hs'
        · intro e' he'
          rw [hidx]
          exact ih6 e' he'
        · intro hlt
          rw [hidx]
          exact ih7 (by omega)

/-- C8: the retry wrapper around `chat_infer` makes at most 10 attempts;
the waits after successive failed attempts are exactly
`min(1 * 2^(n-1), 10)` — exponential growth starting at 1 time-unit capped
at 10; every attempt that is followed by another attempt failed with a
transient kind (non-transient failures and successes are never retried);
any error returned is the re-raised failure of the last attempt made; and
when every attempt fails transiently the wrapper makes exactly 10 attempts
and re-raises the 10th failure instead of swallowing it. -/
theorem chat_infer_retry_policy (outcomes : Nat → CallResult) :
    (chat_infer outcomes).2.1 ≤ 10 ∧
    (chat_infer outcomes).2.2 =
      (List.range' 1 ((chat_infer outcomes).2.1 - 1)).map (wait_exponential 1 10) ∧
    (∀ j, j + 1 < (chat_infer outcomes).2.1 → ∃ e, outcomes (1 + j) = .transientErr e) ∧
    (∀ e, (chat_infer outcomes).1 = .error e →
      outcomes (1 + ((chat_infer outcomes).2.1 - 1)) = .transientErr e ∨
        outcomes (1 + ((chat_infer outcomes).2.1 - 1)) = .fatalErr e) ∧
    ((∀ i, 1 ≤ i → i ≤ 10 → ∃ e, outcomes i = .transientErr e) →
      (chat_infer outcomes).2.1 = 10 ∧
        ∃ e, outcomes 10 = .transientErr e ∧ (chat_infer outcomes).1 = .error e) := by
  obtain ⟨h1, h2, h3, h4, h5, h6, h7⟩ := retry_aux_spec outcomes 10 1 (by omega)
  refine ⟨h2, h3, h4, h6, ?_⟩
  intro hall
  have hn10 : (retry_aux outcomes 1 10).2.1 = 10 := by
    by_contra hne
    have hlt : (retry_aux outcomes 1 10).2.1 < 10 := by omega
    rcases h7 hlt with ⟨s, hs⟩ | ⟨e, he⟩
    · obtain ⟨e', he'⟩ := hall (1 + ((retry_aux outcomes 1 10).2.1 - 1)) (by omega) (by omega)
      rw [hs] at he'
      cases he'
    · obtain ⟨e', he'⟩ := hall (1 + ((retry_aux outcomes 1 10).2.1 - 1)) (by omega) (by omega)
      rw [he] at he'
      cases he'
  refine ⟨hn10, ?_⟩
  have h10 : 1 + ((retry_aux outcomes 1 10).2.1 - 1) = 10 := by omega
  cases hres : (retry_aux outcomes 1 10).1 with
  | ok s =>
    have hok := h5 s hres
    rw [h10] at hok
    obtain ⟨e', he'⟩ := hall 10 (by omega) (by omega)
    rw [hok] at he'
    cases he'
  | error e =>
    have herr := h6 e hres
    rw [h10] at herr
    rcases herr with ht | hfe
    · exact ⟨e, ht, hres⟩
    · obtain ⟨e', he'⟩ := hall 10 (by omega) (by omega)
      rw [hfe] at he'
      cases he'

/-- C8 witness: an oracle failing transiently on every attempt exhausts
exactly 10 attempts and surfaces the 10th failure. -/
theorem chat_infer_retry_policy_witness :
    (chat_infer (fun i => .transientErr (toString i))).2.1 = 10 ∧
    ∃ e, (fun i => CallResult.transientErr (toString i)) 10 = CallResult.transientErr e ∧
      (chat_infer (fun i => .transientErr (toString i))).1 = .error e :=
  (chat_infer_retry_policy (fun i => .transientErr (toString i))).2.2.2.2
    (fun i _ _ => ⟨toString i, rfl⟩)

/-! ## Claim C9: table triplet extraction -/

theorem getElem?_cons_shift {α : Type} (a : α) (l : List α) (j0 jq : Nat)
    (h : j0 + 1 ≤ jq) : (a :: l)[jq - j0]? = l[jq - (j0 + 1)]? := by
  have h1 : jq - j0 = (jq - (j0 + 1)) + 1 := by omega
  rw [h1, List.getElem?_cons_succ]

theorem parse_table_cells_countP (iq jq : Nat) (col_labels : List String)
    (row_label : String) (rlci i : Nat) :
    ∀ (cells : List String) (j0 : Nat),
      (parse_table_cells col_labels row_label rlci i j0 cells).countP
          (fun t => t.row_index == iq && t.col_index == jq) =
        if i = iq ∧ i ≠ 0 ∧ j0 ≤ jq ∧ jq ≠ rlci ∧
            (∃ cell, cells[jq - j0]? = some cell ∧ pyStrip cell ≠ "") then 1 else 0 := by
  intro cells
  induction cells with
  | nil =>
    intro j0
    rw [if_neg]
    · rfl
    · rintro ⟨-, -, -, -, c, hc, -⟩
      simp at hc
  | cons cell rest ih =>
    intro j0
    simp only [parse_table_cells]
    by_cases hskip : pyStrip cell = "" ∨ j0 = rlci
    · rw [if_pos hskip, ih (j0 + 1)]
      refine if_congr ⟨?_, ?_⟩ rfl rfl
      · rintro ⟨hi, hi0, hle, hne, c, hc, hcne⟩
        refine ⟨hi, hi0, by omega, hne, c, ?_, hcne⟩
        rw [getElem?_cons_shift cell rest j0 jq (by omega)]
        exact hc
      · rintro ⟨hi, hi0, hle, hne, c, hc, hcne⟩
        have hj : j0 + 1 ≤ jq := by
          rcases Nat.lt_or_ge j0 jq with hlt | hge
          · omega
          · exfalso
            have hjq : jq = j0 := by omega
            subst hjq
            simp at hc
            rcases hskip with hv | hr
            · exact hcne (hc ▸ hv)
            · exact hne hr
        refine ⟨hi, hi0, hj, hne, c, ?_, hcne⟩
        rw [← getElem?_cons_shift cell rest j0 jq hj]
        exact hc
    · push_neg at hskip
      obtain ⟨hval, hjr⟩ := hskip
      rw [if_neg (by push_neg; exact ⟨hval, hjr⟩)]
      by_cases hi0 : i ≠ 0
      · rw [if_pos hi0, List.countP_cons, ih (j0 + 1)]
        by_cases hmatch : i = iq ∧ j0 = jq
        · obtain ⟨hie, hje⟩ := hmatch
          have hp : ((fun t => t.row_index == iq && t.col_index == jq)
              ({ row_label := row_label, col_label := colLabelOf col_labels j0,
                 value := pyStrip cell, row_index := i, col_index := j0 } : Triplet)) = true := by
            simp [hie, hje]
          have hA : ¬(i = iq ∧ i ≠ 0 ∧ j0 + 1 ≤ jq ∧ jq ≠ rlci ∧
              (∃ c, rest[jq - (j0 + 1)]? = some c ∧ pyStrip c ≠ "")) := by
            rintro ⟨-, -, hle, -, -⟩
            omega
          have hB : i = iq ∧ i ≠ 0 ∧ j0 ≤ jq ∧ jq ≠ rlci ∧
              (∃ c, (cell :: rest)[jq - j0]? = some c ∧ pyStrip c ≠ "") := by
            refine ⟨hie, hi0, by omega, by omega, cell, ?_, hval⟩
            have h0 : jq - j0 = 0 := by omega
            rw [h0, List.getElem?_cons_zero]
          rw [if_pos hp, if_neg hA, if_pos hB]
        · have hp : ¬(((⟨row_label, colLabelOf col_labels j0, pyStrip cell, i, j0⟩ :
                  Triplet).row_index == iq &&
                (⟨row_label, colLabelOf col_labels j0, pyStrip cell, i, j0⟩ :
                  Triplet).col_index == jq) = true) := by
            simp only [Bool.and_eq_true, beq_iff_eq]
            rintro ⟨hie, hje⟩
            exact hmatch ⟨hie, hje⟩
          rw [if_neg hp, Nat.add_zero]
          refine if_congr ⟨?_, ?_⟩ rfl rfl
          · rintro ⟨hi, hi0', hle, hne, c, hc, hcne⟩
            refine ⟨hi, hi0', by omega, hne, c, ?_, hcne⟩
            rw [getElem?_cons_shift cell rest j0 jq (by omega)]
            exact hc
          · rintro ⟨hi, hi0', hle, hne, c, hc, hcne⟩
            have hj : j0 + 1 ≤ jq := by
              have : ¬(j0 = jq) := fun hje => hmatch ⟨hi, hje⟩
              omega
            refine ⟨hi, hi0', hj, hne, c, ?_, hcne⟩
            rw [← getElem?_cons_shift cell rest j0 jq hj]
            exact hc
      · rw [if_neg hi0, ih (j0 + 1)]
        push_neg at hi0
        rw [if_neg (by rintro ⟨-, hi, -⟩; exact hi hi0),
          if_neg (by rintro ⟨-, hi, -⟩; exact hi hi0)]

theorem parse_table_rows_countP (iq jq : Nat) (col_labels : List String) (rlci : Nat) :
    ∀ (rows : List (List String)) (i0 : Nat),
      (parse_table_rows col_labels rlci i0 rows).countP
          (fun t => t.row_index == iq && t.col_index == jq) =
        if i0 ≤ iq ∧ iq ≠ 0 ∧ jq ≠ rlci ∧
            (∃ row, rows[iq - i0]? = some row ∧ ¬(row = [] ∨ row.all (fun v => v = "")) ∧
              ∃ cell, row[jq]? = some cell ∧ pyStrip cell ≠ "") then 1 else 0 := by
  intro rows
  induction rows with
  | nil =>
    intro i0
    rw [if_neg]
    · rfl
    · rintro ⟨-, -, -, row, hrow, -⟩
      simp at hrow
  | cons row rest ih =>
    intro i0
    simp only [parse_table_rows]
    by_cases hskip : row = [] ∨ row.all (fun v => v = "")
    · rw [if_pos hskip, ih (i0 + 1)]
      refine if_congr ⟨?_, ?_⟩ rfl rfl
      · rintro ⟨hle, hi0, hne, r, hr, hrskip, hcell⟩
        refine ⟨by omega, hi0, hne, r, ?_, hrskip, hcell⟩
        rw [getElem?_cons_shift row rest i0 iq (by omega)]
        exact hr
      · rintro ⟨hle, hi0, hne, r, hr, hrskip, hcell⟩
        have hi : i0 + 1 ≤ iq := by
          rcases Nat.lt_or_ge i0 iq with hlt | hge
          · omega
          · exfalso
            have heq : iq = i0 := by omega
            subst heq
            simp at hr
            exact hrskip (hr ▸ hskip)
        refine ⟨hi, hi0, hne, r, ?_, hrskip, hcell⟩
        rw [← getElem?_cons_shift row rest i0 iq hi]
        exact hr
    · rw [if_neg hskip, List.countP_append,
        parse_table_cells_countP iq jq col_labels _ rlci i0 row 0, ih (i0 + 1)]
      by_cases hieq : i0 = iq
      · subst hieq
        have hA2 : ¬(i0 + 1 ≤ i0 ∧ i0 ≠ 0 ∧ jq ≠ rlci ∧
            (∃ r, rest[i0 - (i0 + 1)]? = some r ∧ ¬(r = [] ∨ r.all (fun v => v = "")) ∧
              ∃ cell, r[jq]? = some cell ∧ pyStrip cell ≠ "")) := by
          rintro ⟨hle, -⟩
          omega
        rw [if_neg hA2, Nat.add_zero]
        refine if_congr ⟨?_, ?_⟩ rfl rfl
        · rintro ⟨-, hi0, hle0, hne, c, hc, hcne⟩
          refine ⟨le_refl _, hi0, hne, row, ?_, hskip, c, ?_, hcne⟩
          · rw [Nat.sub_self, List.getElem?_cons_zero]
          · rw [Nat.sub_zero] at hc
            exact hc
        · rintro ⟨-, hi0, hne, r, hr, hrskip, c, hc, hcne⟩
          rw [Nat.sub_self, List.getElem?_cons_zero, Option.some_inj] at hr
          refine ⟨rfl, hi0, by omega, hne, c, ?_, hcne⟩
          rw [Nat.sub_zero, hr]
          exact hc
      · have hA1 : ¬(i0 = iq ∧ i0 ≠ 0 ∧ 0 ≤ jq ∧ jq ≠ rlci ∧
            (∃ cell, row[jq - 0]? = some cell ∧ pyStrip cell ≠ "")) := by
          rintro ⟨h, -⟩
          exact hieq h
        rw [if_neg hA1, Nat.zero_add]
        refine if_congr ⟨?_, ?_⟩ rfl rfl
        · rintro ⟨hle, hi0, hne, r, hr, hrskip, hcell⟩
          refine ⟨by omega, hi0, hne, r, ?_, hrskip, hcell⟩
          rw [getElem?_cons_shift row rest i0 iq (by omega)]
          exact hr
        · rintro ⟨hle, hi0, hne, r, hr, hrskip, hcell⟩
          have hi : i0 + 1 ≤ iq := by omega
          refine ⟨hi, hi0, hne, r, ?_, hrskip, hcell⟩
          rw [← getElem?_cons_shift row rest i0 iq hi]
          exact hr

theorem parse_table_cells_mem (col_labels : List String) (row_label : String)
    (rlci i : Nat) :
    ∀ (cells : List String) (j0 : Nat) (t : Triplet),
      t ∈ parse_table_cells col_labels row_label rlci i j0 cells →
      t.row_label = row_label ∧ t.row_index = i ∧ i ≠ 0 ∧ j0 ≤ t.col_index ∧
        t.col_index ≠ rlci ∧ t.col_label = colLabelOf col_labels t.col_index ∧
        ∃ cell, cells[t.col_index - j0]? = some cell ∧ t.value = pyStrip cell ∧
          t.value ≠ "" := by
  intro cells
  induction cells with
  | nil =>
    intro j0 t ht
    simp [parse_table_cells] at ht
  | cons cell rest ih =>
    intro j0 t ht
    simp only [parse_table_cells] at ht
    by_cases hskip : pyStrip cell = "" ∨ j0 = rlci
    · rw [if_pos hskip] at ht
      obtain ⟨h1, h2, h3, h4, h5, h6, c, hc, hv, hvne⟩ := ih (j0 + 1) t ht
      refine ⟨h1, h2, h3, by omega, h5, h6, c, ?_, hv, hvne⟩
      rw [getElem?_cons_shift cell rest j0 t.col_index (by omega)]
      exact hc
    · push_neg at hskip
      obtain ⟨hval, hjr⟩ := hskip
      rw [if_neg (by push_neg; exact ⟨hval, hjr⟩)] at ht
      by_cases hi0 : i ≠ 0
      · rw [if_pos hi0] at ht
        rcases List.mem_cons.mp ht with heq | htl
        · subst heq
          refine ⟨rfl, rfl, hi0, le_refl _, hjr, rfl, cell, ?_, rfl, hval⟩
          rw [Nat.sub_self, List.getElem?_cons_zero]
        · obtain ⟨h1, h2, h3, h4, h5, h6, c, hc, hv, hvne⟩ := ih (j0 + 1) t htl
          refine ⟨h1, h2, h3, by omega, h5, h6, c, ?_, hv, hvne⟩
          rw [getElem?_cons_shift cell rest j0 t.col_index (by omega)]
          exact hc
      · rw [if_neg hi0] at ht
        obtain ⟨h1, h2, h3, h4, h5, h6, c, hc, hv, hvne⟩ := ih (j0 + 1) t ht
        refine ⟨h1, h2, h3, by omega, h5, h6, c, ?_, hv, hvne⟩
        rw [getElem?_cons_shift cell rest j0 t.col_index (by omega)]
        exact hc

theorem parse_table_rows_mem (col_labels : List String) (rlci : Nat) :
    ∀ (rows : List (List String)) (i0 : Nat) (t : Triplet),
      t ∈ parse_table_rows col_labels rlci i0 rows →
      i0 ≤ t.row_index ∧ t.row_index ≠ 0 ∧ t.col_index ≠ rlci ∧
        t.col_label = colLabelOf col_labels t.col_index ∧
        ∃ row, rows[t.row_index - i0]? = some row ∧
          ¬(row = [] ∨ row.all (fun v => v = "")) ∧
          (∃ cell, row[t.col_index]? = some cell ∧ t.value = pyStrip cell ∧ t.value ≠ "") ∧
          t.row_label = (if h : rlci < row.length then pyStrip (row.get ⟨rlci, h⟩)
            else "Row" ++ toString t.row_index) := by
  intro rows
  induction rows with
  | nil =>
    intro i0 t ht
    simp [parse_table_rows] at ht
  | cons row rest ih =>
    intro i0 t ht
    simp only [parse_table_rows] at ht
    by_cases hskip : row = [] ∨ row.all (fun v => v = "")
    · rw [if_pos hskip] at ht
      obtain ⟨h1, h2, h3, h4, r, hr, hrskip, hcell, hlabel⟩ := ih (i0 + 1) t ht
      refine ⟨by omega, h2, h3, h4, r, ?_, hrskip, hcell, hlabel⟩
      rw [getElem?_cons_shift row rest i0 t.row_index (by omega)]
      exact hr
    · rw [if_neg hskip] at ht
      rcases List.mem_append.mp ht with hcells | htl
      · obtain ⟨h1, h2, h3, h4, h5, h6, c, hc, hv, hvne⟩ :=
          parse_table_cells_mem col_labels _ rlci i0 row 0 t hcells
        subst h2
        refine ⟨le_refl _, h3, h5, h6, row, ?_, hskip, ⟨c, ?_, hv, hvne⟩, h1⟩
        · rw [Nat.sub_self, List.getElem?_cons_zero]
        · rw [Nat.sub_zero] at hc
          exact hc
      · obtain ⟨h1, h2, h3, h4, r, hr, hrskip, hcell, hlabel⟩ := ih (i0 + 1) t htl
        refine ⟨by omega, h2, h3, h4, r, ?_, hrskip, hcell, hlabel⟩
        rw [getElem?_cons_shift row rest i0 t.row_index (by omega)]
        exact hr

theorem mem_of_getElem_eq_some {α : Type} {l : List α} {n : Nat} {a : α}
    (h : l[n]? = some a) : a ∈ l := by
  have hn : n < l.length := by
    by_contra hc
    rw [List.getElem?_eq_none (by omega)] at h
    cases h
  rw [List.getElem?_eq_getElem hn, Option.some_inj] at h
  rw [← h]
  exact List.getElem_mem hn

/-- C9: with the default header row index 0 and row-label column index 0,
`parse_table` emits exactly one triplet per non-empty cell of every
non-header data row (row index ≠ 0) excluding the row-label column; each
triplet carries the stripped cell value, the row label from that row's
column 0, the column label from the header row (data row 0, with headers
as fallback, or synthetic `Col` labels when out of range), and the 0-based
row/column indices; empty cells, row-label-column cells and header-row
cells emit no triplet. -/
theorem parse_table_triplets (headers : List String) (data : List (List String))
    (ts : List Triplet)
    (h : parse_table ⟨[⟨"table", ⟨headers, data⟩⟩]⟩ 0 0 = .ok ts) :
    (∀ t ∈ ts,
      t.row_index ≠ 0 ∧ t.col_index ≠ 0 ∧
      t.col_label = colLabelOf
        ((match data[0]? with | some r => r | none => headers).map pyStrip) t.col_index ∧
      ∃ row, data[t.row_index]? = some row ∧
        (∃ cell, row[t.col_index]? = some cell ∧ t.value = pyStrip cell ∧ t.value ≠ "") ∧
        t.row_label = (if hr : 0 < row.length then pyStrip (row.get ⟨0, hr⟩)
          else "Row" ++ toString t.row_index)) ∧
    (∀ i j, i ≠ 0 → j ≠ 0 → ∀ row, data[i]? = some row → ∀ cell, row[j]? = some cell →
      pyStrip cell ≠ "" →
      ts.countP (fun t => t.row_index == i && t.col_index == j) = 1) := by
  have hrfl : parse_table ⟨[⟨"table", ⟨headers, data⟩⟩]⟩ 0 0 =
      .ok (parse_table_rows
        ((match data[0]? with | some r => r | none => headers).map pyStrip) 0 0 data) := rfl
  rw [hrfl] at h
  have hts : ts = parse_table_rows
      ((match data[0]? with | some r => r | none => headers).map pyStrip) 0 0 data :=
    (Except.ok.inj h).symm
  subst hts
  constructor
  · intro t ht
    obtain ⟨h1, h2, h3, h4, row, hr, hrskip, hcell, hlabel⟩ :=
      parse_table_rows_mem _ 0 data 0 t ht
    rw [Nat.sub_zero] at hr
    exact ⟨h2, h3, h4, row, hr, hcell, hlabel⟩
  · intro i j hi hj row hrow cell hcell hcne
    rw [parse_table_rows_countP i j _ 0 data 0, if_pos]
    refine ⟨Nat.zero_le _, hi, hj, row, ?_, ?_, cell, hcell, hcne⟩
    · rw [Nat.sub_zero]
      exact hrow
    · push_neg
      refine ⟨?_, ?_⟩
      · intro hnil
        subst hnil
        simp at hcell
      · intro hall
        have hcmem : cell ∈ row := mem_of_getElem_eq_some hcell
        have hc0 : cell = "" := by simpa using List.all_eq_true.mp hall cell hcmem
        rw [hc0] at hcne
        exact hcne rfl

/-- C9 witness: the 3×3 table of the spec (row 0 header, row-label column
0, cell (1,1) empty): the cell (1,2) produces exactly one triplet and the
empty cell (1,1) produces none. -/
theorem parse_table_triplets_witness :
    parse_table ⟨[⟨"table", ⟨["H0", "H1", "H2"],
        [["h0", "h1", "h2"], ["r1", "", "v12"], ["r2", "v21", "v22"]]⟩⟩]⟩ 0 0 =
      .ok [⟨"r1", "h2", "v12", 1, 2⟩, ⟨"r2", "h1", "v21", 2, 1⟩, ⟨"r2", "h2", "v22", 2, 2⟩] ∧
    ([⟨"r1", "h2", "v12", 1, 2⟩, ⟨"r2", "h1", "v21", 2, 1⟩, ⟨"r2", "h2", "v22", 2, 2⟩] :
        List Triplet).countP (fun t => t.row_index == 1 && t.col_index == 2) = 1 ∧
    ([⟨"r1", "h2", "v12", 1, 2⟩, ⟨"r2", "h1", "v21", 2, 1⟩, ⟨"r2", "h2", "v22", 2, 2⟩] :
        List Triplet).countP (fun t => t.row_index == 1 && t.col_index == 1) = 0 := by
  refine ⟨by rfl, ?_, by decide⟩
  exact (parse_table_triplets ["H0", "H1", "H2"]
      [["h0", "h1", "h2"], ["r1", "", "v12"], ["r2", "v21", "v22"]]
      [⟨"r1", "h2", "v12", 1, 2⟩, ⟨"r2", "h1", "v21", 2, 1⟩, ⟨"r2", "h2", "v22", 2, 2⟩]
      (by rfl)).2 1 2 (by decide) (by decide) ["r1", "", "v12"] (by rfl) "v12"
      (by rfl) (by decide)
